import Mathlib

/-!
Shallow embedding of the extraction core of `src/extract.py`
(CambridgeCs-StatsAnalysis).  Python machine-level behaviour is made
explicit: list subscripts raise `IndexError` when out of range,
`int()` / `float()` raise `ValueError` on non-numeric text, attribute
access on an object lacking the attribute raises `AttributeError`, and
an `INSERT` clashing with an existing primary key raises an
`IntegrityError`.  Fallible code therefore lives in `Except PyErr`.
Floating point scores are modelled as `Rat`: every score literal in the
source document is a short decimal, represented exactly, and the only
operations performed on scores are order comparisons, on which `Rat`
and IEEE doubles agree for exactly-representable inputs.
-/

/-- Python exception classes that the embedded code can raise. -/
inductive PyErr where
  | indexError
  | valueError
  | attributeError
  | integrityError
deriving DecidableEq

/-- Python `l[i]` for a non-negative index: `IndexError` when out of range. -/
def pyGet (l : List α) (i : Nat) : Except PyErr α :=
  match l.get? i with
  | some a => .ok a
  | none => .error .indexError

/-- Python `l[-1]`: the last element, `IndexError` on an empty list. -/
def pyGetLast (l : List α) : Except PyErr α :=
  match l.getLast? with
  | some a => .ok a
  | none => .error .indexError

/-- Python `l[-3:]`: the last three elements (the whole list when shorter). -/
def lastThree (l : List α) : List α :=
  l.drop (l.length - 3)

/-- Value of a decimal digit character, `none` otherwise. -/
def digitVal (c : Char) : Option Nat :=
  if ('0' ≤ c ∧ c ≤ '9') then some (c.toNat - Char.toNat '0') else none

/-- Fold a digit string into a natural number; `none` on a non-digit. -/
def parseDigitsAux : List Char → Nat → Option Nat
  | [], acc => some acc
  | c :: cs, acc =>
    match digitVal c with
    | some d => parseDigitsAux cs (acc * 10 + d)
    | none => none

/-- A non-empty all-digit string as a natural number. -/
def parseDigits (cs : List Char) : Option Nat :=
  match cs with
  | [] => none
  | _ => parseDigitsAux cs 0

/-- Python `int(s)` on the decimal-literal forms occurring in the document
(optional leading minus, then digits); anything else raises `ValueError`. -/
def pyInt (s : String) : Except PyErr Int :=
  match s.toList with
  | '-' :: rest =>
    match parseDigits rest with
    | some n => .ok (-(n : Int))
    | none => .error .valueError
  | cs =>
    match parseDigits cs with
    | some n => .ok (n : Int)
    | none => .error .valueError

/-- Unsigned decimal literal, with an optional fractional part, as a `Rat`. -/
def parseDecimal (cs : List Char) : Option Rat :=
  match cs.splitOn '.' with
  | [w] => (parseDigits w).map (fun n => mkRat (Int.ofNat n) 1)
  | [w, f] =>
    if w = [] ∧ f = [] then none
    else
      match (if w = [] then some 0 else parseDigits w),
            (if f = [] then some 0 else parseDigits f) with
      | some n, some m =>
        some (mkRat (Int.ofNat (n * 10 ^ f.length + m)) (10 ^ f.length))
      | _, _ => none
  | _ => none

/-- Python `float(s)` on the decimal-literal forms occurring in the document
(optional leading minus, digits, optional fractional part); anything else
raises `ValueError`.  The value is represented exactly as a `Rat`. -/
def pyFloat (s : String) : Except PyErr Rat :=
  match s.toList with
  | '-' :: rest =>
    match parseDecimal rest with
    | some q => .ok (-q)
    | none => .error .valueError
  | cs =>
    match parseDecimal cs with
    | some q => .ok q
    | none => .error .valueError

/-- Python `s.endswith(t)`: the character list of `s` ends with that of
`t`.  Defined over character lists so that it evaluates inside the kernel. -/
def pyEndsWith (s t : String) : Bool :=
  s.toList.drop (s.toList.length - t.toList.length) == t.toList

/-- Code-point-wise lexicographic comparison of character lists, the order
Python uses to compare strings. -/
def charsLe : List Char → List Char → Bool
  | [], _ => true
  | _ :: _, [] => false
  | a :: as, b :: bs =>
    if a.toNat < b.toNat then true
    else if b.toNat < a.toNat then false
    else charsLe as bs

/-- Python string comparison `a <= b` (lexicographic by code point). -/
def pyLe (a b : String) : Prop :=
  charsLe a.toList b.toList = true

instance : DecidableRel pyLe := fun a b => by
  unfold pyLe
  infer_instance

/-- `ORIGINAL_COLLEGE` sentinel tag (extract.py line 21). -/
def ORIGINAL_COLLEGE : String := "Y0"

/-- `OTHER_COLLEGE` sentinel tag (extract.py line 22). -/
def OTHER_COLLEGE : String := "Y1"

/-- `WINTER_POOL` sentinel tag (extract.py line 23). -/
def WINTER_POOL : String := "Y2"

/-- The closed grade set `GRADES` (extract.py line 25); a list, used only
for membership tests, so the set-vs-list difference is immaterial. -/
def GRADES : List String := ["A*", "A", "B", "C", "D", "E"]

/-- The `ALevel` record dataclass. -/
structure ALevel where
  id : Int
  year : Int
  original_college : Bool
  other_college : Bool
  winter_pool : Bool
  grades : List String
deriving DecidableEq

/-- The `GCSE` record dataclass. -/
structure GCSE where
  id : Int
  year : Int
  original_college : Bool
  other_college : Bool
  winter_pool : Bool
  nines : Int
deriving DecidableEq

/-- The `TMUA` record dataclass. -/
structure TMUA where
  id : Int
  year : Int
  original_college : Bool
  other_college : Bool
  winter_pool : Bool
  paper1 : Rat
  paper2 : Rat
  overall : Rat
deriving DecidableEq

/-- A classified record of any of the three kinds (Python holds these in one
heterogeneous `data` list; here a sum type). -/
inductive RecordT where
  | alevel (a : ALevel)
  | gcse (g : GCSE)
  | tmua (t : TMUA)
deriving DecidableEq

/-- The three record kinds. -/
inductive Kind where
  | alevel
  | gcse
  | tmua
deriving DecidableEq

/-- Kind of a classified record (in Python, `type(record)`). -/
def RecordT.kind : RecordT → Kind
  | .alevel _ => .alevel
  | .gcse _ => .gcse
  | .tmua _ => .tmua

/-- The grade-collecting loop of `ALevel.from_words` (extract.py 108-111):
`for i, word in enumerate(record): if word.endswith(":") and record[i+1] in
GRADES: grades.append(record[i+1])`.  Written as a scan with one-token
lookahead: at the final index, a word ending in a colon makes `record[i+1]`
raise `IndexError`, exactly as in Python. -/
def collectGrades : List String → Except PyErr (List String)
  | [] => .ok []
  | [w] => if pyEndsWith w (":") then .error .indexError else .ok []
  | w :: nxt :: rest =>
    match collectGrades (nxt :: rest) with
    | .error e => .error e
    | .ok tail =>
      if pyEndsWith w (":") then
        if nxt ∈ GRADES then .ok (nxt :: tail) else .ok tail
      else .ok tail

/-- `ALevel.from_words` (extract.py 101-114): year at offset 7, id at offset
8, outcome booleans by membership of the sentinel tags, grades by the
colon-lookahead scan, sorted ascending (Python `list.sort` on strings;
insertion sort produces the same sorted permutation). -/
def ALevel.from_words (record : List String) : Except PyErr ALevel :=
  match pyGet record 7 with
  | .error e => .error e
  | .ok s7 =>
    match pyInt s7 with
    | .error e => .error e
    | .ok year =>
      match pyGet record 8 with
      | .error e => .error e
      | .ok s8 =>
        match pyInt s8 with
        | .error e => .error e
        | .ok id =>
          match collectGrades record with
          | .error e => .error e
          | .ok gs =>
            .ok ⟨id, year, record.contains ORIGINAL_COLLEGE,
                 record.contains OTHER_COLLEGE, record.contains WINTER_POOL,
                 List.insertionSort pyLe gs⟩

/-- `GCSE.from_words` (extract.py 156-165): year at offset 6, id at offset 7,
`nines` is `int(record[-1])`. -/
def GCSE.from_words (record : List String) : Except PyErr GCSE :=
  match pyGet record 6 with
  | .error e => .error e
  | .ok s6 =>
    match pyInt s6 with
    | .error e => .error e
    | .ok year =>
      match pyGet record 7 with
      | .error e => .error e
      | .ok s7 =>
        match pyInt s7 with
        | .error e => .error e
        | .ok id =>
          match pyGetLast record with
          | .error e => .error e
          | .ok slast =>
            match pyInt slast with
            | .error e => .error e
            | .ok nines =>
              .ok ⟨id, year, record.contains ORIGINAL_COLLEGE,
                   record.contains OTHER_COLLEGE,
                   record.contains WINTER_POOL, nines⟩

/-- `TMUA.from_words` (extract.py 212-222): year at offset 3, id at offset 4,
`paper1, paper2, overall = map(float, record[-3:])` — the unpacking raises
`ValueError` unless the slice has exactly three items. -/
def TMUA.from_words (record : List String) : Except PyErr TMUA :=
  match pyGet record 3 with
  | .error e => .error e
  | .ok s3 =>
    match pyInt s3 with
    | .error e => .error e
    | .ok year =>
      match pyGet record 4 with
      | .error e => .error e
      | .ok s4 =>
        match pyInt s4 with
        | .error e => .error e
        | .ok id =>
          match lastThree record with
          | [a, b, c] =>
            match pyFloat a with
            | .error e => .error e
            | .ok p1 =>
              match pyFloat b with
              | .error e => .error e
              | .ok p2 =>
                match pyFloat c with
                | .error e => .error e
                | .ok ov =>
                  .ok ⟨id, year, record.contains ORIGINAL_COLLEGE,
                       record.contains OTHER_COLLEGE,
                       record.contains WINTER_POOL, p1, p2, ov⟩
          | _ => .error .valueError

/-- The TMUA score-validity condition of the spec: all three scores in the
inclusive interval from 1 to 9. -/
def tmuaInRange (t : TMUA) : Prop :=
  1 ≤ t.paper1 ∧ t.paper1 ≤ 9 ∧ 1 ≤ t.paper2 ∧ t.paper2 ≤ 9 ∧
  1 ≤ t.overall ∧ t.overall ≤ 9

instance (t : TMUA) : Decidable (tmuaInRange t) := by
  unfold tmuaInRange
  infer_instance

/-- The per-block classification of `main` (extract.py 260-274):
`record[3] == "A"` is A-Level, `record[3] == "GCSE"` is GCSE, else
`record[0] == "Computer"` is TMUA subject to the score-range filter
(out-of-range records are silently discarded, `ok none`); any other
block is not a record (`ok none`).  `record[3]` and `record[0]` raise
`IndexError` on a word list that is too short. -/
def classify (record : List String) : Except PyErr (Option RecordT) :=
  match pyGet record 3 with
  | .error e => .error e
  | .ok w3 =>
    if w3 = "A" then
      match ALevel.from_words record with
      | .error e => .error e
      | .ok a => .ok (some (.alevel a))
    else if w3 = "GCSE" then
      match GCSE.from_words record with
      | .error e => .error e
      | .ok g => .ok (some (.gcse g))
    else
      match pyGet record 0 with
      | .error e => .error e
      | .ok w0 =>
        if w0 = "Computer" then
          match TMUA.from_words record with
          | .error e => .error e
          | .ok t =>
            if ¬ (1 ≤ t.paper1 ∧ t.paper1 ≤ 9) ∨
               ¬ (1 ≤ t.paper2 ∧ t.paper2 ≤ 9) ∨
               ¬ (1 ≤ t.overall ∧ t.overall ≤ 9) then .ok none
            else .ok (some (.tmua t))
        else .ok none

/-- The classification loop over a page's blocks, in block first-seen order
(extract.py 259-274): collect the classified records, dropping blocks
classified as `none`; an exception at any block aborts the page. -/
def classifyBlocks : List (List String) → Except PyErr (List RecordT)
  | [] => .ok []
  | b :: rest =>
    match classify b with
    | .error e => .error e
    | .ok none => classifyBlocks rest
    | .ok (some r) =>
      match classifyBlocks rest with
      | .error e => .error e
      | .ok rs => .ok (r :: rs)

/-- A positioned word token (extract.py 225-232, `Word`): bounding box,
text, and source-document block id. -/
structure Word where
  min_x : Rat
  min_y : Rat
  max_x : Rat
  max_y : Rat
  word : String
  block : Int
deriving DecidableEq

/-- The three column-signature slots, `yes_x_range = [None, None, None]`
(extract.py 241): each slot is unset or holds a closed x-interval. -/
structure Ranges where
  r0 : Option (Rat × Rat)
  r1 : Option (Rat × Rat)
  r2 : Option (Rat × Rat)
deriving DecidableEq

/-- Python `all(yes_x_range)` (extract.py 255): every slot set.  A set slot
holds a two-element tuple, which is always truthy, and `None` is falsy, so
Python truthiness coincides with `isSome`. -/
def Ranges.allSet (r : Ranges) : Prop :=
  r.r0.isSome ∧ r.r1.isSome ∧ r.r2.isSome

instance (r : Ranges) : Decidable r.allSet := by
  unfold Ranges.allSet
  infer_instance

/-- The running state of the single left-to-right token scan of `main`:
the calibration slots plus the per-page `block_words` accumulator.
`block_words` is a `defaultdict(list)`; its iteration order is key
first-seen order, modelled by an association list. -/
structure ScanState where
  ranges : Ranges
  blockWords : List (Int × List String)
deriving DecidableEq

/-- `block_words[b].append(w)` on a `defaultdict(list)`: append to the
entry of key `b`, creating it at the end of the key order if absent. -/
def addWord : List (Int × List String) → Int → String → List (Int × List String)
  | [], b, w => [(b, [w])]
  | (b', ws) :: rest, b, w =>
    if b' = b then (b', ws ++ [w]) :: rest else (b', ws) :: addWord rest b w

/-- Append each tag in turn to block `b` (the inner marker loop appends one
tag per matching slot, in slot order). -/
def addTags (bs : List (Int × List String)) (b : Int) (tags : List String) :
    List (Int × List String) :=
  tags.foldl (fun acc t => addWord acc b t) bs

/-- The word list accumulated for block `b` (empty if `b` has no entry). -/
def lookupBlock : List (Int × List String) → Int → List String
  | [], _ => []
  | (b', ws) :: rest, b => if b' = b then ws else lookupBlock rest b

/-- One header-phrase check of the calibration loop (extract.py 248-254):
`if word.word == word1 and words[i+1].word == word2: yes_x_range[j] =
(word.min_x, words[i+1].max_x)`.  `nxt` is `words[i+1]`; when the current
word equals `word1` and there is no next word, the subscript raises
`IndexError` (Python short-circuits, so `nxt` is only consulted after the
first conjunct holds).  A match overwrites the slot unconditionally. -/
def calibrateOne (w : Word) (nxt : Option Word) (word1 word2 : String)
    (cur : Option (Rat × Rat)) : Except PyErr (Option (Rat × Rat)) :=
  if w.word = word1 then
    match nxt with
    | none => .error .indexError
    | some n => if n.word = word2 then .ok (some (w.min_x, n.max_x)) else .ok cur
  else .ok cur

/-- Whether a slot's interval contains `x` (extract.py 257, inclusive
bounds).  Only consulted under the `all(yes_x_range)` guard, so the `none`
branch is unreachable there. -/
def containsX : Option (Rat × Rat) → Rat → Bool
  | some (lo, hi), x => decide (lo ≤ x ∧ x ≤ hi)
  | none, _ => false

/-- The marker loop body (extract.py 256-258): `for i in range(3): if
yes_x_range[i][0] <= word.min_x <= yes_x_range[i][1]:
block_words[word.block].append(f"Y{i}")` — one tag appended per matching
slot, in slot order; there is no break. -/
def markerTags (r : Ranges) (x : Rat) : List String :=
  (if containsX r.r0 x then ["Y0"] else []) ++
  (if containsX r.r1 x then ["Y1"] else []) ++
  (if containsX r.r2 x then ["Y2"] else [])

/-- One iteration of the token scan of `main` (extract.py 246-258): append
the token text to its block, run the three header-phrase checks (each can
overwrite its slot), then, if the token is the bare marker `"Y"` and all
three slots are set, append one synthetic tag per matching slot. -/
def scanStep (w : Word) (nxt : Option Word) (st : ScanState) :
    Except PyErr ScanState :=
  let bw := addWord st.blockWords w.block w.word
  match calibrateOne w nxt ("Original") ("College") st.ranges.r0 with
  | .error e => .error e
  | .ok s0 =>
    match calibrateOne w nxt ("Other") ("College") st.ranges.r1 with
    | .error e => .error e
    | .ok s1 =>
      match calibrateOne w nxt ("in") ("Winter") st.ranges.r2 with
      | .error e => .error e
      | .ok s2 =>
        let r : Ranges := ⟨s0, s1, s2⟩
        if w.word = "Y" ∧ r.allSet then
          .ok ⟨r, addTags bw w.block (markerTags r w.min_x)⟩
        else .ok ⟨r, bw⟩

/-- The full left-to-right token scan of one page (extract.py 246-258),
threading the scan state; `words[i+1]` is the head of the remaining list. -/
def scanWords : List Word → ScanState → Except PyErr ScanState
  | [], st => .ok st
  | w :: rest, st =>
    match scanStep w rest.head? st with
    | .error e => .error e
    | .ok st' => scanWords rest st'

/-- A row of the `alevel` table (grades stored whitespace-joined). -/
structure ARow where
  id : Int
  year : Int
  original_college : Bool
  other_college : Bool
  winter_pool : Bool
  grades : String
deriving DecidableEq

/-- A row of the `gcse` table. -/
structure GRow where
  id : Int
  year : Int
  original_college : Bool
  other_college : Bool
  winter_pool : Bool
  nines : Int
deriving DecidableEq

/-- A row of the `tmua` table. -/
structure TRow where
  id : Int
  year : Int
  original_college : Bool
  other_college : Bool
  winter_pool : Bool
  paper1 : Rat
  paper2 : Rat
  overall : Rat
deriving DecidableEq

/-- The three tables of one run's SQLite store. -/
structure Store where
  alevel : List ARow
  gcse : List GRow
  tmua : List TRow
deriving DecidableEq

/-- A fresh run's store: `main` creates a new timestamped database file, so
every run starts from empty tables. -/
def emptyStore : Store := ⟨[], [], []⟩

/-- `" ".join(a_level.grades)` (extract.py 76). -/
def joinSpace (gs : List String) : String :=
  String.intercalate (" ") gs

/-- The `alevel` row written for one record (extract.py 76-84). -/
def ALevel.toRow (a : ALevel) : ARow :=
  ⟨a.id, a.year, a.original_college, a.other_college, a.winter_pool,
   joinSpace a.grades⟩

/-- The `gcse` row written for one record (extract.py 140-148). -/
def GCSE.toRow (g : GCSE) : GRow :=
  ⟨g.id, g.year, g.original_college, g.other_college, g.winter_pool, g.nines⟩

/-- The `tmua` row written for one record (extract.py 195-204). -/
def TMUA.toRow (t : TMUA) : TRow :=
  ⟨t.id, t.year, t.original_college, t.other_college, t.winter_pool,
   t.paper1, t.paper2, t.overall⟩

/-- `INSERT INTO alevel`: the column `id` is the primary key, so a
duplicate raises `IntegrityError`; otherwise the row is appended. -/
def insertA (s : Store) (row : ARow) : Except PyErr Store :=
  if s.alevel.any (fun r => r.id == row.id) then .error .integrityError
  else .ok { s with alevel := s.alevel ++ [row] }

/-- `INSERT INTO gcse` with primary-key check. -/
def insertG (s : Store) (row : GRow) : Except PyErr Store :=
  if s.gcse.any (fun r => r.id == row.id) then .error .integrityError
  else .ok { s with gcse := s.gcse ++ [row] }

/-- `INSERT INTO tmua` with primary-key check. -/
def insertT (s : Store) (row : TRow) : Except PyErr Store :=
  if s.tmua.any (fun r => r.id == row.id) then .error .integrityError
  else .ok { s with tmua := s.tmua ++ [row] }

/-- `ALevel.insert_records` (extract.py 72-84).  The whole loop runs inside
one `with Database()` block; `Database.__exit__` (extract.py 36-40) commits
only when no exception occurred and otherwise closes the connection without
committing, which discards the uncommitted rows.  That transaction is
modelled by the `Except` result: a returned `.ok` store is the committed
state, and `.error` means the durable store is unchanged (the caller keeps
its previous store).  The loop accesses `a_level.grades` on each element;
on an element of another record class that attribute is missing and
`AttributeError` is raised. -/
def ALevel.insert_records : List RecordT → Store → Except PyErr Store
  | [], s => .ok s
  | r :: rest, s =>
    match r with
    | .alevel a =>
      match insertA s (ALevel.toRow a) with
      | .error e => .error e
      | .ok s' => ALevel.insert_records rest s'
    | _ => .error .attributeError

/-- `GCSE.insert_records` (extract.py 137-148); `gcse.nines` raises
`AttributeError` on an element of another record class.  Same transaction
model as `ALevel.insert_records`. -/
def GCSE.insert_records : List RecordT → Store → Except PyErr Store
  | [], s => .ok s
  | r :: rest, s =>
    match r with
    | .gcse g =>
      match insertG s (GCSE.toRow g) with
      | .error e => .error e
      | .ok s' => GCSE.insert_records rest s'
    | _ => .error .attributeError

/-- `TMUA.insert_records` (extract.py 192-204); `tmua.paper1` raises
`AttributeError` on an element of another record class.  Same transaction
model as `ALevel.insert_records`. -/
def TMUA.insert_records : List RecordT → Store → Except PyErr Store
  | [], s => .ok s
  | r :: rest, s =>
    match r with
    | .tmua t =>
      match insertT s (TMUA.toRow t) with
      | .error e => .error e
      | .ok s' => TMUA.insert_records rest s'
    | _ => .error .attributeError

/-- `type(data[0]).insert_records(data)` (extract.py 275): `data[0]` raises
`IndexError` on an empty page batch; otherwise the insert routine of the
first record's class receives the whole batch, with no homogeneity check. -/
def dispatchInsert (data : List RecordT) (store : Store) : Except PyErr Store :=
  match data with
  | [] => .error .indexError
  | d :: _ =>
    match d with
    | .alevel _ => ALevel.insert_records data store
    | .gcse _ => GCSE.insert_records data store
    | .tmua _ => TMUA.insert_records data store

/-- One iteration of the page loop of `main` (extract.py 242-275): scan the
page's tokens (starting from the calibration carried over from earlier
pages, with a fresh empty `block_words`), classify the blocks in first-seen
order, and insert the batch.  `.ok` carries the calibration to hand to the
next page and the committed store; `.error` aborts the run with the durable
store unchanged by this page (the page's single insert transaction was not
committed). -/
def processPage (words : List Word) (r : Ranges) (store : Store) :
    Except PyErr (Ranges × Store) :=
  match scanWords words ⟨r, []⟩ with
  | .error e => .error e
  | .ok st =>
    match classifyBlocks (st.blockWords.map (fun p => p.2)) with
    | .error e => .error e
    | .ok data =>
      match dispatchInsert data store with
      | .error e => .error e
      | .ok store' => .ok (st.ranges, store')

/-- The page loop of `main` over a list of pages (each given by its token
sequence): pages run strictly in order; an exception at a page ends the run
with the store as committed by the earlier pages and the error that
propagates out (non-zero exit).  `main` starts with all slots unset and a
fresh empty store. -/
def runPages : List (List Word) → Ranges → Store → Store × Option PyErr
  | [], _, store => (store, none)
  | p :: rest, r, store =>
    match processPage p r store with
    | .ok (r', store') => runPages rest r' store'
    | .error e => (store, some e)

/-- `TMUA.get_data` (extract.py 206-210): read every `tmua` row back as a
`TMUA` record. -/
def TMUA.get_data (store : Store) : List TMUA :=
  store.tmua.map (fun row =>
    ⟨row.id, row.year, row.original_college, row.other_college,
     row.winter_pool, row.paper1, row.paper2, row.overall⟩)

/-- Slot `j` of `yes_x_range` (the Python list index). -/
def slotGet (r : Ranges) : Nat → Option (Rat × Rat)
  | 0 => r.r0
  | 1 => r.r1
  | _ => r.r2

/-- The synthetic tag injected for slot `j` (Python `f"Y{i}"`). -/
def tagName : Nat → String
  | 0 => "Y0"
  | 1 => "Y1"
  | _ => "Y2"

/-- The spec's description of grade collection, for comparison with the
code's `collectGrades`: the word immediately following any word ending in
the literal colon character, kept when it is in the closed grade set. -/
def specGrades (record : List String) : List String :=
  (record.zip record.tail).filterMap (fun p =>
    if pyEndsWith p.1 (":") ∧ p.2 ∈ GRADES then some p.2 else none)

/-- Whether a store-returning operation succeeded. -/
def storeResultOk : Except PyErr Store → Bool
  | .ok _ => true
  | .error _ => false

/-- The spec's score-validity condition on a stored `tmua` row. -/
def rowInRange (row : TRow) : Prop :=
  1 ≤ row.paper1 ∧ row.paper1 ≤ 9 ∧ 1 ≤ row.paper2 ∧ row.paper2 ≤ 9 ∧
  1 ≤ row.overall ∧ row.overall ≤ 9

/-- Test fixture: a one-block page holding a well-formed TMUA record. -/
def tmuaPage : List Word :=
  [⟨0, 0, 1, 1, "Computer", 5⟩, ⟨1, 0, 2, 1, "Science", 5⟩,
   ⟨2, 0, 3, 1, "x", 5⟩, ⟨3, 0, 4, 1, "2023", 5⟩, ⟨4, 0, 5, 1, "12345", 5⟩,
   ⟨5, 0, 6, 1, "5.5", 5⟩, ⟨6, 0, 7, 1, "6.0", 5⟩, ⟨7, 0, 8, 1, "5.8", 5⟩]

/-- Test fixture: a page holding only unclassifiable page furniture. -/
def furniturePage : List Word :=
  [⟨0, 0, 1, 1, "Some", 0⟩, ⟨1, 0, 2, 1, "header", 0⟩,
   ⟨2, 0, 3, 1, "text", 0⟩, ⟨3, 0, 4, 1, "here", 0⟩]

/-- Test fixture: a page whose first two column headers overlap
horizontally, followed by a bare marker inside both intervals. -/
def overlapPage : List Word :=
  [⟨0, 0, 4, 1, "Original", 1⟩, ⟨5, 0, 10, 1, "College", 1⟩,
   ⟨5, 0, 9, 1, "Other", 1⟩, ⟨10, 0, 15, 1, "College", 1⟩,
   ⟨50, 0, 55, 1, "in", 1⟩, ⟨56, 0, 60, 1, "Winter", 1⟩,
   ⟨7, 5, 8, 6, "Y", 9⟩]

/-! ### Theorems -/

theorem pyGet_short {l : List α} {i : Nat} (h : l.length ≤ i) :
    pyGet l i = .error .indexError := by
  simp [pyGet, List.get?_eq_none.mpr h, List.getElem?_eq_none h]

/-- C1: the claim that a block word list too short for the fixed offsets is
silently skipped is false: `record[3]` raises `IndexError` on a two-word
block, and the exception propagates out of classification. -/
theorem c1_counterexample :
    classify (["Admissions", "Statistics"]) = .error PyErr.indexError ∧
    classify (["Admissions", "Statistics"]) ≠ .ok none := by
  refine ⟨rfl, ?_⟩
  intro h
  exact Except.noConfusion ((rfl :
    classify (["Admissions", "Statistics"]) = .error PyErr.indexError).symm.trans h)

/-- C1 (amended): for every block word list with fewer than four words, the
classifier raises `IndexError` at the kind check `record[3]`, and the error
propagates (the block is not silently skipped). -/
theorem c1_short_block_raises (record : List String) (h : record.length < 4) :
    classify record = .error PyErr.indexError := by
  have h3 : pyGet record 3 = .error .indexError := pyGet_short (by omega)
  simp [classify, h3]

theorem c1_short_block_raises_witness :
    (["Page"] : List String).length < 4 ∧
    classify (["Page"]) = .error PyErr.indexError :=
  ⟨by decide, c1_short_block_raises (["Page"]) (by decide)⟩


/-- C8: the claim that any non-matching shape is skipped without error is
false: a two-word page-furniture block raises `IndexError` at `record[3]`
instead of being skipped. -/
theorem c8_counterexample :
    classify (["Computing", "Admissions"]) = .error PyErr.indexError ∧
    classify (["Computing", "Admissions"]) ≠ .ok none := by
  refine ⟨rfl, ?_⟩
  intro h
  exact Except.noConfusion ((rfl :
    classify (["Computing", "Admissions"]) = .error PyErr.indexError).symm.trans h)

/-- C8 (amended): for block word lists with at least four words, the record
kind is decided exactly by the fixed lookup — `record[3] == "A"` parses an
A-Level record, `record[3] == "GCSE"` a GCSE record, otherwise
`record[0] == "Computer"` a TMUA record (kept only when its scores are in
range), and any other shape yields no record, without error.  Shorter lists
instead raise `IndexError` (see the counterexample). -/
theorem c8_classification_rule (record : List String) (h : 4 ≤ record.length) :
    (record.get? 3 = some ("A") →
      classify record =
        match ALevel.from_words record with
        | .error e => .error e
        | .ok a => .ok (some (.alevel a))) ∧
    (record.get? 3 = some ("GCSE") →
      classify record =
        match GCSE.from_words record with
        | .error e => .error e
        | .ok g => .ok (some (.gcse g))) ∧
    (record.get? 3 ≠ some ("A") → record.get? 3 ≠ some ("GCSE") →
      record.get? 0 = some ("Computer") →
      classify record =
        match TMUA.from_words record with
        | .error e => .error e
        | .ok t => if tmuaInRange t then .ok (some (.tmua t)) else .ok none) ∧
    (record.get? 3 ≠ some ("A") → record.get? 3 ≠ some ("GCSE") →
      record.get? 0 ≠ some ("Computer") →
      classify record = .ok none) := by
  have h3 : record.get? 3 = some (record.get ⟨3, by omega⟩) :=
    List.get?_eq_get (by omega)
  have h0 : record.get? 0 = some (record.get ⟨0, by omega⟩) :=
    List.get?_eq_get (by omega)
  have hp3 : pyGet record 3 = .ok (record.get ⟨3, by omega⟩) := by
    unfold pyGet
    rw [h3]
  have hp0 : pyGet record 0 = .ok (record.get ⟨0, by omega⟩) := by
    unfold pyGet
    rw [h0]
  refine ⟨?_, ?_, ?_, ?_⟩
  · intro hA
    rw [h3] at hA
    have hA' : record.get ⟨3, by omega⟩ = "A" := Option.some_injective _ hA
    simp only [classify, hp3, hA', if_pos]
  · intro hG
    rw [h3] at hG
    have hG' : record.get ⟨3, by omega⟩ = "GCSE" := Option.some_injective _ hG
    have hne : ¬ ("GCSE" : String) = "A" := by decide
    simp only [classify, hp3, hG', if_neg hne, if_pos]
  · intro hA hG hC
    rw [h3] at hA hG
    rw [h0] at hC
    have hA' : ¬ record.get ⟨3, by omega⟩ = "A" := fun hh => hA (by rw [hh])
    have hG' : ¬ record.get ⟨3, by omega⟩ = "GCSE" := fun hh => hG (by rw [hh])
    have hC' : record.get ⟨0, by omega⟩ = "Computer" := Option.some_injective _ hC
    simp only [classify, hp3, hp0, if_neg hA', if_neg hG', hC', if_pos]
    cases htm : TMUA.from_words record with
    | error e => rfl
    | ok t =>
      dsimp only
      by_cases hC2 : ¬ (1 ≤ t.paper1 ∧ t.paper1 ≤ 9) ∨
          ¬ (1 ≤ t.paper2 ∧ t.paper2 ≤ 9) ∨ ¬ (1 ≤ t.overall ∧ t.overall ≤ 9)
      · rw [if_pos hC2]
        have hnin : ¬ tmuaInRange t := by
          intro hin
          obtain ⟨a1, a2, a3, a4, a5, a6⟩ := hin
          rcases hC2 with hc | hc | hc
          · exact hc ⟨a1, a2⟩
          · exact hc ⟨a3, a4⟩
          · exact hc ⟨a5, a6⟩
        rw [if_neg hnin]
      · rw [if_neg hC2]
        push_neg at hC2
        obtain ⟨⟨a1, a2⟩, ⟨a3, a4⟩, ⟨a5, a6⟩⟩ := hC2
        rw [if_pos (show tmuaInRange t from ⟨a1, a2, a3, a4, a5, a6⟩)]
  · intro hA hG hC
    rw [h3] at hA hG
    rw [h0] at hC
    have hA' : ¬ record.get ⟨3, by omega⟩ = "A" := fun hh => hA (by rw [hh])
    have hG' : ¬ record.get ⟨3, by omega⟩ = "GCSE" := fun hh => hG (by rw [hh])
    have hC' : ¬ record.get ⟨0, by omega⟩ = "Computer" := fun hh => hC (by rw [hh])
    simp only [classify, hp3, hp0, if_neg hA', if_neg hG', if_neg hC']

theorem c8_classification_rule_witness :
    classify (["Some", "header", "text", "here"]) = .ok none :=
  (c8_classification_rule (["Some", "header", "text", "here"])
    (by decide)).2.2.2 (by decide) (by decide) (by decide)

theorem lookupBlock_addWord_self (bs : List (Int × List String)) (b : Int)
    (w : String) : lookupBlock (addWord bs b w) b = lookupBlock bs b ++ [w] := by
  induction bs with
  | nil => simp [addWord, lookupBlock]
  | cons p rest ih =>
    obtain ⟨b', ws⟩ := p
    by_cases hb : b' = b
    · simp [addWord, lookupBlock, hb]
    · simp [addWord, lookupBlock, hb, ih]

theorem lookupBlock_addTags_self (ts : List String)
    (bs : List (Int × List String)) (b : Int) :
    lookupBlock (addTags bs b ts) b = lookupBlock bs b ++ ts := by
  induction ts generalizing bs with
  | nil => simp [addTags]
  | cons t rest ih =>
    have : addTags bs b (t :: rest) = addTags (addWord bs b t) b rest := rfl
    rw [this, ih, lookupBlock_addWord_self]
    simp

theorem calibrateOne_ne {w : Word} {nxt : Option Word} {word1 word2 : String}
    {cur : Option (Rat × Rat)} (hne : w.word ≠ word1) :
    calibrateOne w nxt word1 word2 cur = .ok cur := by
  unfold calibrateOne
  rw [if_neg hne]

theorem calibrateOne_isSome {w : Word} {nxt : Option Word} {w1 w2 : String}
    {cur cur' : Option (Rat × Rat)}
    (h : calibrateOne w nxt w1 w2 cur = .ok cur') (hs : cur.isSome) :
    cur'.isSome := by
  unfold calibrateOne at h
  by_cases hw : w.word = w1
  · rw [if_pos hw] at h
    cases nxt with
    | none => exact Except.noConfusion h
    | some n =>
      dsimp only at h
      by_cases hn : n.word = w2
      · rw [if_pos hn] at h
        injection h with h'
        rw [← h']
        rfl
      · rw [if_neg hn] at h
        injection h with h'
        rw [← h']
        exact hs
  · rw [if_neg hw] at h
    injection h with h'
    rw [← h']
    exact hs

theorem markerTags_eq (r : Ranges) (x : Rat) :
    markerTags r x = [0, 1, 2].filterMap (fun j =>
      if containsX (slotGet r j) x then some (tagName j) else none) := by
  cases h0 : containsX r.r0 x <;> cases h1 : containsX r.r1 x <;>
    cases h2 : containsX r.r2 x <;>
    simp [markerTags, slotGet, tagName, h0, h1, h2, List.filterMap]

theorem scanStep_marker_allSet {w : Word} {nxt : Option Word}
    {st : ScanState} (hw : w.word = "Y") (hall : st.ranges.allSet) :
    scanStep w nxt st = .ok ⟨st.ranges,
      addTags (addWord st.blockWords w.block w.word) w.block
        (markerTags st.ranges w.min_x)⟩ := by
  obtain ⟨⟨q0, q1, q2⟩, bws⟩ := st
  have hO : w.word ≠ "Original" := by rw [hw]; decide
  have hT : w.word ≠ "Other" := by rw [hw]; decide
  have hI : w.word ≠ "in" := by rw [hw]; decide
  unfold scanStep
  rw [calibrateOne_ne hO, calibrateOne_ne hT, calibrateOne_ne hI]
  simp only
  rw [if_pos ⟨hw, hall⟩]

/-- C2: the claim that exactly one tag (the earliest matching column's) is
appended for a marker inside more than one interval is false: the marker
loop has no break, so a marker at x = 7 inside both the first interval
(0 to 10) and the second (5 to 15) gets both tags `Y0` and `Y1` appended
to its block. -/
theorem c2_counterexample :
    (scanWords overlapPage ⟨⟨none, none, none⟩, []⟩).map
        (fun st => lookupBlock st.blockWords 9) = .ok (["Y", "Y0", "Y1"]) ∧
    (["Y", "Y0", "Y1"].countP
        (fun s => decide (s = "Y0" ∨ s = "Y1" ∨ s = "Y2"))) ≠ 1 := by
  exact ⟨rfl, by decide⟩

/-- C2 (amended): for a bare marker scanned while all three signatures are
set, one synthetic tag is appended per column interval containing the
marker's `min_x`, in increasing slot-index order (so the earliest-indexed
matching column's tag comes first); when the intervals are pairwise
disjoint this is exactly one tag. -/
theorem c2_marker_tag_per_matching_slot (w : Word) (nxt : Option Word)
    (st : ScanState) (hw : w.word = "Y") (hall : st.ranges.allSet) :
    scanStep w nxt st = .ok ⟨st.ranges,
      addTags (addWord st.blockWords w.block w.word) w.block
        ([0, 1, 2].filterMap (fun j =>
          if containsX (slotGet st.ranges j) w.min_x then some (tagName j)
          else none))⟩ ∧
    lookupBlock (addTags (addWord st.blockWords w.block w.word) w.block
        ([0, 1, 2].filterMap (fun j =>
          if containsX (slotGet st.ranges j) w.min_x then some (tagName j)
          else none))) w.block
      = lookupBlock st.blockWords w.block ++ w.word ::
          ([0, 1, 2].filterMap (fun j =>
            if containsX (slotGet st.ranges j) w.min_x then some (tagName j)
            else none)) := by
  constructor
  · rw [← markerTags_eq]
    exact scanStep_marker_allSet hw hall
  · rw [lookupBlock_addTags_self, lookupBlock_addWord_self]
    simp

theorem c2_marker_tag_per_matching_slot_witness :
    scanStep (⟨7, 5, 8, 6, "Y", 9⟩ : Word) none
        ⟨⟨some (0, 10), some (5, 15), some (50, 60)⟩, []⟩ =
      .ok ⟨⟨some (0, 10), some (5, 15), some (50, 60)⟩,
        addTags (addWord [] 9 "Y") 9
          ([0, 1, 2].filterMap (fun j =>
            if containsX
                (slotGet ⟨some (0, 10), some (5, 15), some (50, 60)⟩ j)
                ((7 : Rat)) then some (tagName j)
            else none))⟩ :=
  (c2_marker_tag_per_matching_slot ⟨7, 5, 8, 6, "Y", 9⟩ none
    ⟨⟨some (0, 10), some (5, 15), some (50, 60)⟩, []⟩ rfl
    (by exact ⟨rfl, rfl, rfl⟩)).1

/-- C5: while not all three column signatures are set, a bare marker token
contributes only its own text to its block: no synthetic tag is appended
and the calibration state is untouched (the marker is silently dropped). -/
theorem c5_marker_dropped_before_calibration (w : Word) (nxt : Option Word)
    (st : ScanState) (hw : w.word = "Y") (hns : ¬ st.ranges.allSet) :
    scanStep w nxt st = .ok ⟨st.ranges, addWord st.blockWords w.block w.word⟩ := by
  obtain ⟨⟨q0, q1, q2⟩, bws⟩ := st
  have hO : w.word ≠ "Original" := by rw [hw]; decide
  have hT : w.word ≠ "Other" := by rw [hw]; decide
  have hI : w.word ≠ "in" := by rw [hw]; decide
  unfold scanStep
  rw [calibrateOne_ne hO, calibrateOne_ne hT, calibrateOne_ne hI]
  simp only
  rw [if_neg (fun hg => hns hg.2)]

theorem c5_marker_dropped_before_calibration_witness :
    scanStep (⟨3, 0, 4, 1, "Y", 2⟩ : Word) none
        ⟨⟨none, some (1, 2), some (3, 4)⟩, [(2, ["foo"])]⟩ =
      .ok ⟨⟨none, some (1, 2), some (3, 4)⟩, addWord [(2, ["foo"])] 2 "Y"⟩ :=
  c5_marker_dropped_before_calibration ⟨3, 0, 4, 1, "Y", 2⟩ none
    ⟨⟨none, some (1, 2), some (3, 4)⟩, [(2, ["foo"])]⟩ rfl (by decide)

theorem scanStep_preserves_isSome {w : Word} {nxt : Option Word}
    {st st' : ScanState} (h : scanStep w nxt st = .ok st') :
    (st.ranges.r0.isSome → st'.ranges.r0.isSome) ∧
    (st.ranges.r1.isSome → st'.ranges.r1.isSome) ∧
    (st.ranges.r2.isSome → st'.ranges.r2.isSome) := by
  unfold scanStep at h
  cases h0 : calibrateOne w nxt ("Original") ("College") st.ranges.r0 with
  | error e => rw [h0] at h; exact Except.noConfusion h
  | ok s0 =>
    rw [h0] at h
    cases h1 : calibrateOne w nxt ("Other") ("College") st.ranges.r1 with
    | error e => rw [h1] at h; exact Except.noConfusion h
    | ok s1 =>
      rw [h1] at h
      cases h2 : calibrateOne w nxt ("in") ("Winter") st.ranges.r2 with
      | error e => rw [h2] at h; exact Except.noConfusion h
      | ok s2 =>
        rw [h2] at h
        dsimp only at h
        have hr : st'.ranges = ⟨s0, s1, s2⟩ := by
          by_cases hg : w.word = "Y" ∧ Ranges.allSet ⟨s0, s1, s2⟩
          · rw [if_pos hg] at h
            injection h with h'
            rw [← h']
          · rw [if_neg hg] at h
            injection h with h'
            rw [← h']
        rw [hr]
        exact ⟨fun hs => calibrateOne_isSome h0 hs,
               fun hs => calibrateOne_isSome h1 hs,
               fun hs => calibrateOne_isSome h2 hs⟩

/-- C4: the claim that a column-signature slot is written at most once per
run is false: a second occurrence of the header phrase overwrites the
slot.  Scanning the first two tokens alone leaves slot 0 at the interval
(10, 50); scanning the four-token page with a repeated "Original College"
pair leaves slot 0 at (100, 140), not the first-written (10, 50). -/
theorem c4_counterexample :
    (scanWords [⟨10, 0, 20, 1, "Original", 1⟩, ⟨21, 0, 50, 1, "College", 1⟩]
        ⟨⟨none, none, none⟩, []⟩).map (fun st => st.ranges.r0)
      = .ok (some (10, 50)) ∧
    (scanWords [⟨10, 0, 20, 1, "Original", 1⟩, ⟨21, 0, 50, 1, "College", 1⟩,
        ⟨100, 0, 120, 1, "Original", 1⟩, ⟨121, 0, 140, 1, "College", 1⟩]
        ⟨⟨none, none, none⟩, []⟩).map (fun st => st.ranges.r0)
      = .ok (some (100, 140)) ∧
    some ((100 : Rat), (140 : Rat)) ≠ some ((10 : Rat), (50 : Rat)) :=
  ⟨rfl, rfl, by decide⟩

/-- C4 (amended): once a column-signature slot has been set it stays set
for the remainder of the run — a completed token scan never clears a slot,
and a successfully processed page hands every set slot on to the next page
— but its interval is overwritten by each later match of that slot's
header phrase (last match wins; see the counterexample). -/
theorem c4_signature_persistence :
    (∀ (words : List Word) (st st' : ScanState),
      scanWords words st = .ok st' →
      (st.ranges.r0.isSome → st'.ranges.r0.isSome) ∧
      (st.ranges.r1.isSome → st'.ranges.r1.isSome) ∧
      (st.ranges.r2.isSome → st'.ranges.r2.isSome)) ∧
    (∀ (p : List Word) (r : Ranges) (store : Store) (r' : Ranges) (s' : Store),
      processPage p r store = .ok (r', s') →
      (r.r0.isSome → r'.r0.isSome) ∧ (r.r1.isSome → r'.r1.isSome) ∧
      (r.r2.isSome → r'.r2.isSome)) := by
  have hscan : ∀ (words : List Word) (st st' : ScanState),
      scanWords words st = .ok st' →
      (st.ranges.r0.isSome → st'.ranges.r0.isSome) ∧
      (st.ranges.r1.isSome → st'.ranges.r1.isSome) ∧
      (st.ranges.r2.isSome → st'.ranges.r2.isSome) := by
    intro words
    induction words with
    | nil =>
      intro st st' h
      injection h with h'
      rw [← h']
      exact ⟨id, id, id⟩
    | cons w rest ih =>
      intro st st' h
      unfold scanWords at h
      cases hs : scanStep w rest.head? st with
      | error e => rw [hs] at h; exact Except.noConfusion h
      | ok st1 =>
        rw [hs] at h
        obtain ⟨p0, p1, p2⟩ := scanStep_preserves_isSome hs
        obtain ⟨q0, q1, q2⟩ := ih st1 st' h
        exact ⟨fun hh => q0 (p0 hh), fun hh => q1 (p1 hh), fun hh => q2 (p2 hh)⟩
  refine ⟨hscan, ?_⟩
  intro p r store r' s' h
  unfold processPage at h
  cases hs : scanWords p ⟨r, []⟩ with
  | error e => rw [hs] at h; exact Except.noConfusion h
  | ok st =>
    rw [hs] at h
    dsimp only at h
    cases hc : classifyBlocks (st.blockWords.map (fun q => q.2)) with
    | error e => rw [hc] at h; exact Except.noConfusion h
    | ok data =>
      rw [hc] at h
      dsimp only at h
      cases hd : dispatchInsert data store with
      | error e => rw [hd] at h; exact Except.noConfusion h
      | ok store' =>
        rw [hd] at h
        dsimp only at h
        injection h with h'
        injection h' with ha hb
        rw [ha.symm]
        exact hscan p ⟨r, []⟩ st hs

theorem c4_signature_persistence_witness :
    ((⟨⟨some (5, 6), none, none⟩, []⟩ : ScanState).ranges.r0.isSome →
      (⟨⟨some (10, 50), none, none⟩,
        [(1, ["Original", "College"])]⟩ : ScanState).ranges.r0.isSome) ∧
    ((⟨⟨some (5, 6), none, none⟩, []⟩ : ScanState).ranges.r1.isSome →
      (⟨⟨some (10, 50), none, none⟩,
        [(1, ["Original", "College"])]⟩ : ScanState).ranges.r1.isSome) ∧
    ((⟨⟨some (5, 6), none, none⟩, []⟩ : ScanState).ranges.r2.isSome →
      (⟨⟨some (10, 50), none, none⟩,
        [(1, ["Original", "College"])]⟩ : ScanState).ranges.r2.isSome) :=
  c4_signature_persistence.1
    [⟨10, 0, 20, 1, "Original", 1⟩, ⟨21, 0, 50, 1, "College", 1⟩]
    ⟨⟨some (5, 6), none, none⟩, []⟩
    ⟨⟨some (10, 50), none, none⟩, [(1, ["Original", "College"])]⟩ rfl

theorem charsLe_trans : ∀ {a b c : List Char},
    charsLe a b = true → charsLe b c = true → charsLe a c = true := by
  intro a
  induction a with
  | nil => intro b c _ _; rfl
  | cons x as ih =>
    intro b c h1 h2
    cases b with
    | nil => exact absurd h1 (by simp [charsLe])
    | cons y bs =>
      cases c with
      | nil => exact absurd h2 (by simp [charsLe])
      | cons z cs =>
        unfold charsLe at h1 h2 ⊢
        by_cases hxy : x.toNat < y.toNat
        · rw [if_pos hxy] at h1
          by_cases hyz : y.toNat < z.toNat
          · rw [if_pos (show x.toNat < z.toNat by omega)]
          · rw [if_neg hyz] at h2
            by_cases hzy : z.toNat < y.toNat
            · rw [if_pos hzy] at h2
              exact Bool.noConfusion h2
            · rw [if_pos (show x.toNat < z.toNat by omega)]
        · rw [if_neg hxy] at h1
          by_cases hyx : y.toNat < x.toNat
          · rw [if_pos hyx] at h1
            exact Bool.noConfusion h1
          · rw [if_neg hyx] at h1
            by_cases hyz : y.toNat < z.toNat
            · rw [if_pos (show x.toNat < z.toNat by omega)]
            · rw [if_neg hyz] at h2
              by_cases hzy : z.toNat < y.toNat
              · rw [if_pos hzy] at h2
                exact Bool.noConfusion h2
              · rw [if_neg hzy] at h2
                rw [if_neg (show ¬ x.toNat < z.toNat by omega),
                    if_neg (show ¬ z.toNat < x.toNat by omega)]
                exact ih h1 h2

theorem charsLe_total : ∀ (a b : List Char),
    charsLe a b = true ∨ charsLe b a = true := by
  intro a
  induction a with
  | nil => intro b; exact Or.inl rfl
  | cons x as ih =>
    intro b
    cases b with
    | nil => exact Or.inr rfl
    | cons y bs =>
      unfold charsLe
      rcases Nat.lt_trichotomy x.toNat y.toNat with hlt | heq | hgt
      · exact Or.inl (by rw [if_pos hlt])
      · rw [if_neg (by omega), if_neg (by omega), if_neg (by omega),
            if_neg (by omega)]
        exact ih bs
      · exact Or.inr (by rw [if_pos hgt])

instance : IsTrans String pyLe :=
  ⟨fun _ _ _ h1 h2 => charsLe_trans h1 h2⟩

instance : IsTotal String pyLe :=
  ⟨fun a b => charsLe_total a.toList b.toList⟩

theorem collectGrades_eq_spec : ∀ {record gs : List String},
    collectGrades record = .ok gs → gs = specGrades record := by
  intro record
  induction record with
  | nil =>
    intro gs h
    injection h with h'
    rw [← h']
    rfl
  | cons w rest ih =>
    intro gs h
    cases rest with
    | nil =>
      unfold collectGrades at h
      by_cases hw : pyEndsWith w (":")
      · rw [if_pos hw] at h
        exact Except.noConfusion h
      · rw [if_neg hw] at h
        injection h with h'
        rw [← h']
        rfl
    | cons nxt rest' =>
      unfold collectGrades at h
      cases hc : collectGrades (nxt :: rest') with
      | error e => rw [hc] at h; exact Except.noConfusion h
      | ok tail =>
        rw [hc] at h
        dsimp only at h
        by_cases hw : pyEndsWith w (":")
        · by_cases hg : nxt ∈ GRADES
          · rw [if_pos hw, if_pos hg] at h
            injection h with h'
            rw [← h', ih hc]
            simp [specGrades, List.zip_cons_cons, List.filterMap_cons, hw, hg]
          · rw [if_pos hw, if_neg hg] at h
            injection h with h'
            rw [← h', ih hc]
            simp [specGrades, List.zip_cons_cons, List.filterMap_cons, hw, hg]
        · rw [if_neg hw] at h
          injection h with h'
          rw [← h', ih hc]
          simp [specGrades, List.zip_cons_cons, List.filterMap_cons, hw]

theorem specGrades_subset {record : List String} {g : String}
    (h : g ∈ specGrades record) : g ∈ GRADES := by
  unfold specGrades at h
  rw [List.mem_filterMap] at h
  obtain ⟨p, hp, hsome⟩ := h
  by_cases hc : pyEndsWith p.1 (":") ∧ p.2 ∈ GRADES
  · rw [if_pos hc] at hsome
    injection hsome with h'
    rw [← h']
    exact hc.2
  · rw [if_neg hc] at hsome
    exact Option.noConfusion hsome

/-- C6: every `ALevel` record produced by a successful parse has its grade
list sorted ascending in the code-point lexicographic string order (the
order Python's `list.sort` uses on strings), with every element drawn from
the closed grade set, and the collected grades are exactly the words that
immediately follow a word ending in the literal colon character and lie in
the grade set (in scan order, then sorted). -/
theorem c6_alevel_grades_sorted (record : List String) (a : ALevel)
    (h : ALevel.from_words record = .ok a) :
    List.Sorted pyLe a.grades ∧
    (∀ g ∈ a.grades, g ∈ GRADES) ∧
    a.grades = List.insertionSort pyLe (specGrades record) := by
  unfold ALevel.from_words at h
  cases h7 : pyGet record 7 with
  | error e => rw [h7] at h; exact Except.noConfusion h
  | ok s7 =>
    rw [h7] at h
    dsimp only at h
    cases hi7 : pyInt s7 with
    | error e => rw [hi7] at h; exact Except.noConfusion h
    | ok year =>
      rw [hi7] at h
      dsimp only at h
      cases h8 : pyGet record 8 with
      | error e => rw [h8] at h; exact Except.noConfusion h
      | ok s8 =>
        rw [h8] at h
        dsimp only at h
        cases hi8 : pyInt s8 with
        | error e => rw [hi8] at h; exact Except.noConfusion h
        | ok id =>
          rw [hi8] at h
          dsimp only at h
          cases hg : collectGrades record with
          | error e => rw [hg] at h; exact Except.noConfusion h
          | ok gs =>
            rw [hg] at h
            dsimp only at h
            injection h with h'
            have hgr : a.grades = List.insertionSort pyLe gs := by
              rw [← h']
            refine ⟨?_, ?_, ?_⟩
            · rw [hgr]
              exact List.sorted_insertionSort pyLe gs
            · intro g hmem
              rw [hgr] at hmem
              have hmem' : g ∈ gs :=
                (List.perm_insertionSort pyLe gs).mem_iff.mp hmem
              rw [collectGrades_eq_spec hg] at hmem'
              exact specGrades_subset hmem'
            · rw [hgr, collectGrades_eq_spec hg]

theorem c6_alevel_grades_sorted_witness :
    List.Sorted pyLe
      ((⟨10045, 2023, true, false, false, ["A*", "B"]⟩ : ALevel).grades) ∧
    (∀ g ∈ ((⟨10045, 2023, true, false, false, ["A*", "B"]⟩ : ALevel).grades),
      g ∈ GRADES) ∧
    (⟨10045, 2023, true, false, false, ["A*", "B"]⟩ : ALevel).grades =
      List.insertionSort pyLe (specGrades ["a", "b", "c", "A", "x", "y", "z",
        "2023", "10045", "Chemistry:", "B", "Physics:", "A*", "Y0"]) :=
  c6_alevel_grades_sorted
    ["a", "b", "c", "A", "x", "y", "z", "2023", "10045", "Chemistry:", "B",
     "Physics:", "A*", "Y0"]
    ⟨10045, 2023, true, false, false, ["A*", "B"]⟩ rfl

theorem classify_tmua_in_range {record : List String} {t : TMUA}
    (h : classify record = .ok (some (.tmua t))) : tmuaInRange t := by
  unfold classify at h
  cases hp : pyGet record 3 with
  | error e => rw [hp] at h; exact Except.noConfusion h
  | ok w3 =>
    rw [hp] at h
    dsimp only at h
    by_cases hA : w3 = "A"
    · rw [if_pos hA] at h
      cases ha : ALevel.from_words record with
      | error e => rw [ha] at h; exact Except.noConfusion h
      | ok a =>
        rw [ha] at h
        dsimp only at h
        injection h with h'
        exact absurd h' (by simp)
    · rw [if_neg hA] at h
      by_cases hG : w3 = "GCSE"
      · rw [if_pos hG] at h
        cases hg : GCSE.from_words record with
        | error e => rw [hg] at h; exact Except.noConfusion h
        | ok g =>
          rw [hg] at h
          dsimp only at h
          injection h with h'
          exact absurd h' (by simp)
      · rw [if_neg hG] at h
        cases hp0 : pyGet record 0 with
        | error e => rw [hp0] at h; exact Except.noConfusion h
        | ok w0 =>
          rw [hp0] at h
          dsimp only at h
          by_cases hC : w0 = "Computer"
          · rw [if_pos hC] at h
            cases htm : TMUA.from_words record with
            | error e => rw [htm] at h; exact Except.noConfusion h
            | ok t' =>
              rw [htm] at h
              dsimp only at h
              by_cases hcond : ¬ (1 ≤ t'.paper1 ∧ t'.paper1 ≤ 9) ∨
                  ¬ (1 ≤ t'.paper2 ∧ t'.paper2 ≤ 9) ∨
                  ¬ (1 ≤ t'.overall ∧ t'.overall ≤ 9)
              · rw [if_pos hcond] at h
                injection h with h'
                exact absurd h' (by simp)
              · rw [if_neg hcond] at h
                injection h with h'
                have ht : t' = t := by
                  have := Option.some_injective _ h'
                  injection this with hh
                push_neg at hcond
                obtain ⟨⟨a1, a2⟩, ⟨a3, a4⟩, ⟨a5, a6⟩⟩ := hcond
                rw [← ht]
                exact ⟨a1, a2, a3, a4, a5, a6⟩
          · rw [if_neg hC] at h
            injection h with h'
            exact absurd h' (by simp)

theorem classifyBlocks_tmua_in_range : ∀ {bs : List (List String)}
    {data : List RecordT} {t : TMUA},
    classifyBlocks bs = .ok data → RecordT.tmua t ∈ data → tmuaInRange t := by
  intro bs
  induction bs with
  | nil =>
    intro data t h hm
    injection h with h'
    rw [← h'] at hm
    exact absurd hm (List.not_mem_nil _)
  | cons b rest ih =>
    intro data t h hm
    unfold classifyBlocks at h
    cases hc : classify b with
    | error e => rw [hc] at h; exact Except.noConfusion h
    | ok r? =>
      rw [hc] at h
      cases r? with
      | none =>
        dsimp only at h
        exact ih h hm
      | some r =>
        dsimp only at h
        cases hr : classifyBlocks rest with
        | error e => rw [hr] at h; exact Except.noConfusion h
        | ok rs =>
          rw [hr] at h
          dsimp only at h
          injection h with h'
          rw [← h'] at hm
          cases hm with
          | head =>
            exact classify_tmua_in_range hc
          | tail _ hm' => exact ih hr hm'

theorem alevel_insert_tmua_unchanged : ∀ {data : List RecordT}
    {s s' : Store}, ALevel.insert_records data s = .ok s' → s'.tmua = s.tmua := by
  intro data
  induction data with
  | nil =>
    intro s s' h
    injection h with h'
    rw [← h']
  | cons r rest ih =>
    intro s s' h
    cases r with
    | alevel a =>
      unfold ALevel.insert_records insertA at h
      dsimp only at h
      by_cases hdup : s.alevel.any (fun row => row.id == (ALevel.toRow a).id)
      · rw [if_pos hdup] at h
        exact Except.noConfusion h
      · rw [if_neg hdup] at h
        dsimp only at h
        have hh := ih h
        exact hh
    | gcse g => exact Except.noConfusion h
    | tmua t => exact Except.noConfusion h

theorem gcse_insert_tmua_unchanged : ∀ {data : List RecordT}
    {s s' : Store}, GCSE.insert_records data s = .ok s' → s'.tmua = s.tmua := by
  intro data
  induction data with
  | nil =>
    intro s s' h
    injection h with h'
    rw [← h']
  | cons r rest ih =>
    intro s s' h
    cases r with
    | gcse g =>
      unfold GCSE.insert_records insertG at h
      dsimp only at h
      by_cases hdup : s.gcse.any (fun row => row.id == (GCSE.toRow g).id)
      · rw [if_pos hdup] at h
        exact Except.noConfusion h
      · rw [if_neg hdup] at h
        dsimp only at h
        have hh := ih h
        exact hh
    | alevel a => exact Except.noConfusion h
    | tmua t => exact Except.noConfusion h

theorem tmua_insert_rows_mem : ∀ {data : List RecordT} {s s' : Store},
    TMUA.insert_records data s = .ok s' → ∀ row ∈ s'.tmua,
    row ∈ s.tmua ∨ ∃ t, RecordT.tmua t ∈ data ∧ row = TMUA.toRow t := by
  intro data
  induction data with
  | nil =>
    intro s s' h row hrow
    injection h with h'
    rw [← h'] at hrow
    exact Or.inl hrow
  | cons r rest ih =>
    intro s s' h row hrow
    cases r with
    | tmua t =>
      unfold TMUA.insert_records insertT at h
      dsimp only at h
      by_cases hdup : s.tmua.any (fun row => row.id == (TMUA.toRow t).id)
      · rw [if_pos hdup] at h
        exact Except.noConfusion h
      · rw [if_neg hdup] at h
        dsimp only at h
        rcases ih h row hrow with hold | ⟨t', ht', heq⟩
        · dsimp only at hold
          rw [List.mem_append] at hold
          rcases hold with hin | hone
          · exact Or.inl hin
          · rw [List.mem_singleton] at hone
            exact Or.inr ⟨t, List.mem_cons_self _ _, hone⟩
        · exact Or.inr ⟨t', List.mem_cons_of_mem _ ht', heq⟩
    | alevel a => exact Except.noConfusion h
    | gcse g => exact Except.noConfusion h

theorem dispatchInsert_tmua_mem {data : List RecordT} {s s' : Store}
    (h : dispatchInsert data s = .ok s') : ∀ row ∈ s'.tmua,
    row ∈ s.tmua ∨ ∃ t, RecordT.tmua t ∈ data ∧ row = TMUA.toRow t := by
  intro row hrow
  cases data with
  | nil => exact Except.noConfusion h
  | cons d rest =>
    cases d with
    | alevel a =>
      rw [alevel_insert_tmua_unchanged h] at hrow
      exact Or.inl hrow
    | gcse g =>
      rw [gcse_insert_tmua_unchanged h] at hrow
      exact Or.inl hrow
    | tmua t => exact tmua_insert_rows_mem h row hrow

theorem processPage_rows_in_range {p : List Word} {r : Ranges}
    {s : Store} {r' : Ranges} {s' : Store}
    (h : processPage p r s = .ok (r', s')) :
    ∀ row ∈ s'.tmua, row ∈ s.tmua ∨ rowInRange row := by
  intro row hrow
  unfold processPage at h
  cases hs : scanWords p ⟨r, []⟩ with
  | error e => rw [hs] at h; exact Except.noConfusion h
  | ok st =>
    rw [hs] at h
    dsimp only at h
    cases hc : classifyBlocks (st.blockWords.map (fun q => q.2)) with
    | error e => rw [hc] at h; exact Except.noConfusion h
    | ok data =>
      rw [hc] at h
      dsimp only at h
      cases hd : dispatchInsert data s with
      | error e => rw [hd] at h; exact Except.noConfusion h
      | ok store' =>
        rw [hd] at h
        dsimp only at h
        injection h with h'
        injection h' with ha hb
        rw [← hb] at hrow
        rcases dispatchInsert_tmua_mem hd row hrow with hold | ⟨t, htm, heq⟩
        · exact Or.inl hold
        · right
          have hin := classifyBlocks_tmua_in_range hc htm
          obtain ⟨a1, a2, a3, a4, a5, a6⟩ := hin
          rw [heq]
          exact ⟨a1, a2, a3, a4, a5, a6⟩

theorem runPages_rows_in_range : ∀ {pages : List (List Word)} {r : Ranges}
    {s : Store}, (∀ row ∈ s.tmua, rowInRange row) →
    ∀ row ∈ (runPages pages r s).1.tmua, rowInRange row := by
  intro pages
  induction pages with
  | nil => intro r s hinv row hrow; exact hinv row hrow
  | cons p rest ih =>
    intro r s hinv row hrow
    unfold runPages at hrow
    cases hp : processPage p r s with
    | error e =>
      rw [hp] at hrow
      exact hinv row hrow
    | ok rs' =>
      rw [hp] at hrow
      obtain ⟨r', s'⟩ := rs'
      have hinv' : ∀ row ∈ s'.tmua, rowInRange row := by
        intro row' hrow'
        rcases processPage_rows_in_range hp row' hrow' with hold | hok
        · exact hinv row' hold
        · exact hok
      exact ih hinv' row hrow

/-- C3: a TMUA record with any of `paper1`, `paper2`, `overall` outside the
inclusive interval 1 to 9 is silently discarded during classification and
never inserted, so reading the `tmua` table back after any extraction run
(which always starts from a fresh empty store) yields only in-range rows. -/
theorem c3_tmua_roundtrip_in_range (pages : List (List Word)) (r : Ranges)
    (t : TMUA) (h : t ∈ TMUA.get_data (runPages pages r emptyStore).1) :
    1 ≤ t.paper1 ∧ t.paper1 ≤ 9 ∧ 1 ≤ t.paper2 ∧ t.paper2 ≤ 9 ∧
    1 ≤ t.overall ∧ t.overall ≤ 9 := by
  unfold TMUA.get_data at h
  rw [List.mem_map] at h
  obtain ⟨row, hrow, heq⟩ := h
  have hinv : ∀ row' ∈ (emptyStore : Store).tmua, rowInRange row' := by
    intro row' hrow'
    exact absurd hrow' (List.not_mem_nil _)
  have hr := runPages_rows_in_range hinv row hrow
  obtain ⟨a1, a2, a3, a4, a5, a6⟩ := hr
  rw [← heq]
  exact ⟨a1, a2, a3, a4, a5, a6⟩

theorem c3_tmua_roundtrip_in_range_witness :
    1 ≤ (⟨12345, 2023, false, false, false, mkRat 11 2, 6,
        mkRat 29 5⟩ : TMUA).paper1 ∧
    (⟨12345, 2023, false, false, false, mkRat 11 2, 6,
        mkRat 29 5⟩ : TMUA).paper1 ≤ 9 ∧
    1 ≤ (⟨12345, 2023, false, false, false, mkRat 11 2, 6,
        mkRat 29 5⟩ : TMUA).paper2 ∧
    (⟨12345, 2023, false, false, false, mkRat 11 2, 6,
        mkRat 29 5⟩ : TMUA).paper2 ≤ 9 ∧
    1 ≤ (⟨12345, 2023, false, false, false, mkRat 11 2, 6,
        mkRat 29 5⟩ : TMUA).overall ∧
    (⟨12345, 2023, false, false, false, mkRat 11 2, 6,
        mkRat 29 5⟩ : TMUA).overall ≤ 9 :=
  c3_tmua_roundtrip_in_range [tmuaPage] ⟨none, none, none⟩
    ⟨12345, 2023, false, false, false, mkRat 11 2, 6, mkRat 29 5⟩ (by decide)

/-- C7: each page's batch insert is one transaction.  First conjunct: an
exception while processing a page aborts the run with the durable store
exactly as the earlier pages committed it — nothing from the failing page
lands, no later page runs.  Second conjunct: a successful batch commits the
whole batch — the `alevel` rows gain exactly one row per record, in order,
and the other tables are untouched. -/
theorem c7_page_transaction :
    (∀ (p : List Word) (rest : List (List Word)) (r : Ranges) (store : Store)
        (e : PyErr), processPage p r store = .error e →
      runPages (p :: rest) r store = (store, some e)) ∧
    (∀ (data : List RecordT) (store s' : Store),
      ALevel.insert_records data store = .ok s' →
      ∃ as : List ALevel, data = as.map RecordT.alevel ∧
        s'.alevel = store.alevel ++ as.map ALevel.toRow ∧
        s'.gcse = store.gcse ∧ s'.tmua = store.tmua) := by
  constructor
  · intro p rest r store e h
    unfold runPages
    rw [h]
  · intro data
    induction data with
    | nil =>
      intro store s' h
      injection h with h'
      refine ⟨[], rfl, ?_, ?_, ?_⟩
      · rw [← h']
        simp
      · rw [← h']
      · rw [← h']
    | cons d rest ih =>
      intro store s' h
      cases d with
      | alevel a =>
        unfold ALevel.insert_records insertA at h
        dsimp only at h
        by_cases hdup : store.alevel.any (fun row => row.id == (ALevel.toRow a).id)
        · rw [if_pos hdup] at h
          exact Except.noConfusion h
        · rw [if_neg hdup] at h
          dsimp only at h
          obtain ⟨as, hdata, hal, hgc, htm⟩ := ih _ _ h
          refine ⟨a :: as, by rw [hdata]; rfl, ?_, ?_, ?_⟩
          · rw [hal]
            simp
          · rw [hgc]
          · rw [htm]
      | gcse g => exact Except.noConfusion h
      | tmua t => exact Except.noConfusion h

theorem c7_page_transaction_witness :
    runPages ([] :: [tmuaPage]) ⟨none, none, none⟩ emptyStore
      = (emptyStore, some PyErr.indexError) :=
  c7_page_transaction.1 [] [tmuaPage] ⟨none, none, none⟩ emptyStore
    PyErr.indexError rfl

/-- C9: a page whose scan succeeds but whose blocks produce zero
classifiable records makes the run abort at that page with the propagated
`IndexError` from `data[0]`, with the store unchanged and every later page
unprocessed. -/
theorem c9_empty_page_aborts (p : List Word) (rest : List (List Word))
    (r : Ranges) (store : Store) (st : ScanState)
    (hscan : scanWords p ⟨r, []⟩ = .ok st)
    (hempty : classifyBlocks (st.blockWords.map (fun q => q.2)) = .ok []) :
    runPages (p :: rest) r store = (store, some PyErr.indexError) := by
  unfold runPages
  unfold processPage
  rw [hscan]
  dsimp only
  rw [hempty]
  rfl

theorem c9_empty_page_aborts_witness :
    runPages (furniturePage :: [tmuaPage]) ⟨none, none, none⟩ emptyStore
      = (emptyStore, some PyErr.indexError) :=
  c9_empty_page_aborts furniturePage [tmuaPage] ⟨none, none, none⟩ emptyStore
    ⟨⟨none, none, none⟩, [(0, ["Some", "header", "text", "here"])]⟩ rfl rfl

theorem alevel_insert_hetero : ∀ {data : List RecordT} {s : Store}
    {x : RecordT}, x ∈ data → x.kind ≠ Kind.alevel →
    storeResultOk (ALevel.insert_records data s) = false := by
  intro data
  induction data with
  | nil => intro s x hx _; exact absurd hx (List.not_mem_nil _)
  | cons d rest ih =>
    intro s x hx hk
    cases d with
    | alevel a =>
      have hxr : x ∈ rest := by
        cases hx with
        | head => exact absurd rfl hk
        | tail _ h' => exact h'
      unfold ALevel.insert_records
      dsimp only
      cases hi : insertA s (ALevel.toRow a) with
      | error e => rfl
      | ok s1 => exact ih hxr hk
    | gcse g => rfl
    | tmua t => rfl

theorem gcse_insert_hetero : ∀ {data : List RecordT} {s : Store}
    {x : RecordT}, x ∈ data → x.kind ≠ Kind.gcse →
    storeResultOk (GCSE.insert_records data s) = false := by
  intro data
  induction data with
  | nil => intro s x hx _; exact absurd hx (List.not_mem_nil _)
  | cons d rest ih =>
    intro s x hx hk
    cases d with
    | gcse g =>
      have hxr : x ∈ rest := by
        cases hx with
        | head => exact absurd rfl hk
        | tail _ h' => exact h'
      unfold GCSE.insert_records
      dsimp only
      cases hi : insertG s (GCSE.toRow g) with
      | error e => rfl
      | ok s1 => exact ih hxr hk
    | alevel a => rfl
    | tmua t => rfl

theorem tmua_insert_hetero : ∀ {data : List RecordT} {s : Store}
    {x : RecordT}, x ∈ data → x.kind ≠ Kind.tmua →
    storeResultOk (TMUA.insert_records data s) = false := by
  intro data
  induction data with
  | nil => intro s x hx _; exact absurd hx (List.not_mem_nil _)
  | cons d rest ih =>
    intro s x hx hk
    cases d with
    | tmua t =>
      have hxr : x ∈ rest := by
        cases hx with
        | head => exact absurd rfl hk
        | tail _ h' => exact h'
      unfold TMUA.insert_records
      dsimp only
      cases hi : insertT s (TMUA.toRow t) with
      | error e => rfl
      | ok s1 => exact ih hxr hk
    | alevel a => rfl
    | gcse g => rfl

/-- C10: the claim that a mixed page's records are routed into the first
record's insert routine and land in its table is false on its second half:
the routine is indeed selected by the first record's class and receives the
whole batch, but on reaching the first record of another class the
kind-specific attribute access raises `AttributeError`, so the transaction
is not committed and no record of the page lands in any table. -/
theorem c10_counterexample :
    dispatchInsert [RecordT.gcse ⟨10045, 2023, false, false, false, 9⟩,
      RecordT.alevel ⟨10046, 2023, false, false, false, ["A*", "B"]⟩]
      emptyStore = .error PyErr.attributeError := rfl

/-- C10 (amended): the whole page batch is passed, unchecked for
homogeneity, to the insert routine selected by the class of the first
record; when the batch contains two records of different kinds, that
routine fails (the foreign record's attribute access raises
`AttributeError`, or an earlier row raises `IntegrityError`), so the page
commits nothing rather than writing foreign records into the first
record's table. -/
theorem c10_dispatch_first_kind :
    (∀ (d : RecordT) (rest : List RecordT) (store : Store),
      dispatchInsert (d :: rest) store =
        (match d with
         | .alevel _ => ALevel.insert_records
         | .gcse _ => GCSE.insert_records
         | .tmua _ => TMUA.insert_records) (d :: rest) store) ∧
    (∀ (data : List RecordT) (store : Store) (d1 d2 : RecordT),
      d1 ∈ data → d2 ∈ data → d1.kind ≠ d2.kind →
      storeResultOk (dispatchInsert data store) = false) := by
  constructor
  · intro d rest store
    cases d <;> rfl
  · intro data store d1 d2 h1 h2 hne
    cases data with
    | nil => exact absurd h1 (List.not_mem_nil _)
    | cons d rest =>
      have hx : ∃ x, x ∈ d :: rest ∧ RecordT.kind x ≠ RecordT.kind d := by
        by_cases hd : d1.kind = d.kind
        · exact ⟨d2, h2, fun hh => hne (by rw [hd, hh])⟩
        · exact ⟨d1, h1, hd⟩
      obtain ⟨x, hxm, hxk⟩ := hx
      cases d with
      | alevel a => exact alevel_insert_hetero hxm hxk
      | gcse g => exact gcse_insert_hetero hxm hxk
      | tmua t => exact tmua_insert_hetero hxm hxk

theorem c10_dispatch_first_kind_witness :
    storeResultOk (dispatchInsert
      [RecordT.gcse ⟨3, 2023, false, false, false, 7⟩,
       RecordT.tmua ⟨4, 2023, false, false, false, 5, 5, 5⟩]
      emptyStore) = false :=
  c10_dispatch_first_kind.2
    [RecordT.gcse ⟨3, 2023, false, false, false, 7⟩,
     RecordT.tmua ⟨4, 2023, false, false, false, 5, 5, 5⟩]
    emptyStore
    (RecordT.gcse ⟨3, 2023, false, false, false, 7⟩)
    (RecordT.tmua ⟨4, 2023, false, false, false, 5, 5, 5⟩)
    (by decide) (by decide) (by decide)
